import Mathlib

/-!
Verification of the bro-cut log-projection engine
(`src/aux/bro-aux/bro-cut/bro-cut.c`).

Lines of the input stream are modelled as lists of bytes (`List Nat`,
each entry a byte value).  C strings become byte lists; the NUL
terminator is not represented, and reading the first character of an
empty string is modelled by `List.headD _ 0` (the terminator byte).
The `strftime`/`localtime` based timestamp rendering is an external
libc facility; it enters the model as an explicit function parameter
`conv` of the projector, applied exactly where the C code applies it.
-/

namespace BroCut

/-- Byte list of a string literal (ASCII code points). -/
def bytes (s : String) : List Nat := s.data.map Char.toNat

/-- One token-splitting pass in the style of repeated `strsep` calls:
splitting a byte list on a single separator byte yields the list of
tokens; the result always has (number of separators + 1) entries. -/
def splitSep (sep : Nat) : List Nat → List (List Nat)
  | [] => [[]]
  | b :: rest =>
    if b = sep then [] :: splitSep sep rest
    else (b :: (splitSep sep rest).headD []) :: (splitSep sep rest).tail

/-- `string_index` from bro-cut.c: first index of `needle` in
`haystack`, or `-1` when absent. -/
def string_index (haystack : List (List Nat)) (needle : List Nat) : Int :=
  match haystack with
  | [] => -1
  | h :: t =>
    if h = needle then 0
    else
      let r := string_index t needle
      if r = -1 then -1 else r + 1

/-- Hex-digit test used by the `strtol(.., 16)` model. -/
def isHexDigitB (b : Nat) : Bool :=
  (48 ≤ b && b ≤ 57) || (65 ≤ b && b ≤ 70) || (97 ≤ b && b ≤ 102)

/-- Value of a hex digit byte. -/
def hexDigitVal (b : Nat) : Nat :=
  if b ≤ 57 then b - 48 else if b ≤ 70 then b - 55 else b - 87

/-- C `isspace` bytes skipped by `strtol`. -/
def isSpaceB (b : Nat) : Bool := b == 32 || (9 ≤ b && b ≤ 13)

/-- Optional sign consumed by `strtol`; returns (negative?, rest). -/
def strtolSign (s : List Nat) : Bool × List Nat :=
  match s with
  | [] => (false, [])
  | b :: r =>
    if b = 43 then (false, r)
    else if b = 45 then (true, r)
    else (false, b :: r)

/-- Optional `0x`/`0X` marker consumed by `strtol` in base 16 (only
when a hex digit follows it). -/
def strtolHexBody (s : List Nat) : List Nat :=
  match s with
  | b :: x :: r =>
    if b = 48 ∧ (x = 120 ∨ x = 88) ∧ isHexDigitB (r.headD 0) then r
    else b :: x :: r
  | _ => s

/-- Value of the maximal leading run of hex digits. -/
def hexRunVal (l : List Nat) : Nat :=
  (l.takeWhile isHexDigitB).foldl (fun a b => 16 * a + hexDigitVal b) 0

/-- Model of `strtol(s, NULL, 16)` on a 64-bit long: skip whitespace,
optional sign, optional `0x`, then the maximal run of hex digits
(empty run gives 0); clamped to the long range on overflow. -/
def strtol16 (s : List Nat) : Int :=
  let p := strtolSign (s.dropWhile isSpaceB)
  let v : Nat := hexRunVal (strtolHexBody p.2)
  if p.1 then (if (v : Int) > 2 ^ 63 then -(2 ^ 63) else -(v : Int))
  else (if (v : Int) > 2 ^ 63 - 1 then 2 ^ 63 - 1 else (v : Int))

/-- Conversion of a C `long` to a stored byte (`char`): low 8 bits. -/
def byteOf (v : Int) : Nat := (v % 256).toNat

/-- `parsesep` from bro-cut.c: resolve the argument of a
`#separator` header line to a single byte. -/
def parsesep (s : List Nat) : Nat :=
  if s.take 2 = bytes "\\x" then byteOf (strtol16 (s.drop 2))
  else s.headD 0

/-- The `maxval` accumulation loop of `find_output_indexes`
(non-negate branch), over int values starting from 0. -/
def cmaxI (l : List Int) : Int := l.foldl (fun m v => if m < v then v else m) 0

/-- The `maxval` accumulation loop of `find_output_indexes`
(negate branch), over kept indices starting from 0. -/
def cmaxN (l : List Nat) : Nat := l.foldl (fun m v => if m < v then v else m) 0

/-- `struct useropts`: options fixed for a whole run.  The
user-supplied output separator is a byte, 0 meaning "not set" (the C
code tests `bopts.ofs[0]`, and `-F` forbids an empty argument). -/
structure Useropts where
  showhdr : Nat
  negate : Bool
  timeconv : Nat
  columns : List (List Nat)
  ofs : Nat
deriving DecidableEq

/-- `struct logparams`: per-log-file parameters.  `num_out_indexes`
is the length of `out_indexes`; the scratch array `tmp_fields` is
recomputed per line and not part of the state. -/
structure LogParams where
  out_indexes : List Int
  idx_range : Nat
  time_cols : List Bool
  num_fields : Nat
  ifs : Nat
  ofs : Nat
deriving DecidableEq

/-- `find_output_indexes` from bro-cut.c, on the portion of the
`#fields` line after the tag (the C call site passes `line + 8`).
Allocation failure is the only C error path and is not modelled. -/
def find_output_indexes (line : List Nat) (lp : LogParams) (bopts : Useropts) :
    LogParams :=
  let num_fields := line.countP (fun b => b == lp.ifs) + 1
  if bopts.columns = [] then
    { lp with out_indexes := (List.range num_fields).map Int.ofNat,
              idx_range := num_fields, num_fields := num_fields }
  else
    let tmp_fields := splitSep lp.ifs line
    if bopts.negate = false then
      let out := bopts.columns.map (fun c => string_index tmp_fields c)
      { lp with out_indexes := out,
                idx_range := (cmaxI out + 1).toNat, num_fields := num_fields }
    else
      let keep := (List.range num_fields).filter
        (fun i => string_index bopts.columns (tmp_fields.getD i []) == -1)
      { lp with out_indexes := keep.map Int.ofNat,
                idx_range := cmaxN keep + 1, num_fields := num_fields }

/-- `find_timecol` from bro-cut.c, on the portion of the `#types`
line after the tag (the C call site passes `line + 7`); `none` models
the fatal "not enough fields" error. -/
def find_timecol (rest : List Nat) (lp : LogParams) : Option LogParams :=
  let fields := splitSep lp.ifs rest
  if fields.length < lp.idx_range then none
  else some { lp with
    time_cols := (fields.take lp.idx_range).map (fun f => f == bytes "time") }

/-- The extra leading field carried by header lines. -/
def hdrExtra (hdr : Bool) : Nat := if hdr then 1 else 0

/-- Content printed for one `out_indexes` entry in the output loop of
`output_indexes`: nothing for the -1 marker; the time-converted field
on data lines with time conversion; the literal "string" for a "time"
entry of a `#types` header under time conversion; the raw field
otherwise. -/
def slotOut (conv : List Nat → List Nat) (tc ttc : Bool) (timeCols : List Bool)
    (tf : List (List Nat)) (h : Nat) (k : Int) : List Nat :=
  if k = -1 then []
  else if tc && timeCols.getD k.toNat false then conv (tf.getD k.toNat [])
  else if ttc && (tf.getD (k.toNat + h) [] == bytes "time") then bytes "string"
  else tf.getD (k.toNat + h) []

/-- The `firstdone`-guarded printing loop of `output_indexes`: a
separator byte is printed before every slot except before the first
one when nothing was printed yet. -/
def emitLoop (ofs : Nat) : Bool → List (List Nat) → List Nat
  | _, [] => []
  | fd, s :: rest => (if fd then [ofs] else []) ++ s ++ emitLoop ofs true rest

/-- `output_indexes` from bro-cut.c: project one line.  `none` models
the recoverable "skipping log line (not enough fields)" path (a
diagnostic, no output line); `some o` is the emitted line. -/
def project (bopts : Useropts) (conv : List Nat → List Nat) (lp : LogParams)
    (hdr : Bool) (line : List Nat) : Option (List Nat) :=
  let toks := splitSep lp.ifs line
  if toks.length < lp.idx_range + hdrExtra hdr then none
  else
    let tf := toks.take (lp.idx_range + hdrExtra hdr)
    let tc := (bopts.timeconv != 0) && !hdr
    let ttc := (bopts.timeconv != 0) && hdr && (tf.getD 0 [] == bytes "#types")
    let slots := lp.out_indexes.map (slotOut conv tc ttc lp.time_cols tf (hdrExtra hdr))
    if hdr then some (tf.getD 0 [] ++ emitLoop lp.ofs true slots)
    else some (emitLoop lp.ofs false slots)

/-- Observable effects of the run: stdout lines and stderr
diagnostics. -/
inductive Event where
  | out : List Nat → Event
  | err : List Nat → Event
deriving DecidableEq

def isOut : Event → Bool
  | Event.out _ => true
  | Event.err _ => false

def msg_missing_types : List Nat := bytes "bro-cut: bad log header (missing #types line)"
def msg_missing_fields : List Nat := bytes "bro-cut: bad log header (missing #fields line)"
def msg_skip : List Nat := bytes "bro-cut: skipping log line (not enough fields)"
def msg_hdr_short : List Nat := bytes "bro-cut: log header does not have enough fields"

/-- Mutable driver state of `bro_cut`. -/
structure DriverState where
  lp : LogParams
  headers_seen : Nat
  prev_line_hdr : Bool
  prev_fields_line : Bool
deriving DecidableEq

/-- The header-display decision made at the end of the header branch:
`#fields`/`#types` lines go through the projector, other header lines
are echoed verbatim, and nothing is shown unless
`showhdr ≥ headers_seen`. -/
def displayHdr (bopts : Useropts) (conv : List Nat → List Nat) (lp : LogParams)
    (hs : Nat) (line : List Nat) : List Event :=
  if bopts.showhdr ≥ hs then
    if line.take 7 = bytes "#fields" ∨ line.take 6 = bytes "#types" then
      match project bopts conv lp true line with
      | none => [Event.err msg_skip]
      | some o => [Event.out o]
    else [Event.out line]
  else []

/-- The `headers_seen` update at a transition into a header block:
increment, saturating once two blocks have been counted. -/
def bumpHS (prev_line_hdr : Bool) (hs : Nat) : Nat :=
  if prev_line_hdr then hs else if hs < 2 then hs + 1 else hs

/-- The `logparams` update of the `#separator` branch: the input
separator is re-parsed, and the output separator becomes the user
override when one was given, else the new input separator. -/
def sepLP (bopts : Useropts) (lp : LogParams) (s : Nat) : LogParams :=
  { lp with ifs := s, ofs := if bopts.ofs ≠ 0 then bopts.ofs else s }

/-- One iteration of the `bro_cut` main loop on a (newline-stripped)
line: the emitted events, and the successor state, or `none` when the
iteration sets `ret = 1` and breaks out of the loop. -/
def step (bopts : Useropts) (conv : List Nat → List Nat) (st : DriverState)
    (line : List Nat) : List Event × Option DriverState :=
  if st.prev_fields_line ∧ ¬(line.take 6 = bytes "#types") then
    ([Event.err msg_missing_types], none)
  else if line.headD 0 ≠ 35 then
    match project bopts conv st.lp false line with
    | none => ([Event.err msg_skip], some { st with prev_line_hdr := false })
    | some o => ([Event.out o], some { st with prev_line_hdr := false })
  else if line.take 11 = bytes "#separator " then
    (displayHdr bopts conv (sepLP bopts st.lp (parsesep (line.drop 11)))
       (bumpHS st.prev_line_hdr st.headers_seen) line,
     some ⟨sepLP bopts st.lp (parsesep (line.drop 11)),
       bumpHS st.prev_line_hdr st.headers_seen, true, st.prev_fields_line⟩)
  else if line.take 7 = bytes "#fields" then
    (displayHdr bopts conv (find_output_indexes (line.drop 8) st.lp bopts)
       (bumpHS st.prev_line_hdr st.headers_seen) line,
     some ⟨find_output_indexes (line.drop 8) st.lp bopts,
       bumpHS st.prev_line_hdr st.headers_seen, true, true⟩)
  else if line.take 6 = bytes "#types" then
    if st.prev_fields_line = false then
      ([Event.err msg_missing_fields], none)
    else if bopts.timeconv ≠ 0 then
      match find_timecol (line.drop 7) st.lp with
      | none => ([Event.err msg_hdr_short], none)
      | some lp =>
        (displayHdr bopts conv lp (bumpHS st.prev_line_hdr st.headers_seen) line,
         some ⟨lp, bumpHS st.prev_line_hdr st.headers_seen, true, false⟩)
    else
      (displayHdr bopts conv st.lp (bumpHS st.prev_line_hdr st.headers_seen) line,
       some ⟨st.lp, bumpHS st.prev_line_hdr st.headers_seen, true, false⟩)
  else
    (displayHdr bopts conv st.lp (bumpHS st.prev_line_hdr st.headers_seen) line,
     some ⟨st.lp, bumpHS st.prev_line_hdr st.headers_seen, true, st.prev_fields_line⟩)

/-- The `while (getline ...)` loop: events of the whole run and the
final return value of `bro_cut`. -/
def runLoop (bopts : Useropts) (conv : List Nat → List Nat) :
    DriverState → List (List Nat) → List Event × Nat
  | _, [] => ([], 0)
  | st, l :: ls =>
    match step bopts conv st l with
    | (evs, none) => (evs, 1)
    | (evs, some st') =>
      let r := runLoop bopts conv st' ls
      (evs ++ r.1, r.2)

/-- Initial `logparams`: tab separators, empty index list. -/
def initLP : LogParams :=
  { out_indexes := [], idx_range := 0, time_cols := [], num_fields := 0,
    ifs := 9, ofs := 9 }

/-- Initial driver state of `bro_cut`. -/
def initState : DriverState :=
  { lp := initLP, headers_seen := 0, prev_line_hdr := false, prev_fields_line := false }

/-- `bro_cut` from bro-cut.c on a stream of newline-stripped lines. -/
def bro_cut (bopts : Useropts) (conv : List Nat → List Nat)
    (lines : List (List Nat)) : List Event × Nat :=
  runLoop bopts conv initState lines

/-- A stream with two embedded header blocks (identity column
selection, no time conversion). -/
def exBlocks : List (List Nat) :=
  [bytes "#fields\ta", bytes "#types\tstring", bytes "1",
   bytes "#fields\ta", bytes "#types\tstring", bytes "2"]

/-! ### List helpers -/

theorem length_splitSep (sep : Nat) (l : List Nat) :
    (splitSep sep l).length = l.countP (fun b => b == sep) + 1 := by
  induction l with
  | nil => simp [splitSep]
  | cons b rest ih =>
    by_cases h : b = sep
    · simp [splitSep, h, List.countP_cons, ih]
    · have hne : (splitSep sep rest).length ≠ 0 := by omega
      simp only [splitSep, if_neg h, List.length_cons, List.length_tail]
      rw [List.countP_cons_of_neg]
      · omega
      · simpa using h

theorem splitSep_ne_nil (sep : Nat) (l : List Nat) : splitSep sep l ≠ [] := by
  have h := length_splitSep sep l
  intro hc
  rw [hc] at h
  simp at h

theorem getD_take (l : List Nat) (n k : Nat) (d : Nat) (h : k < n) :
    (l.take n).getD k d = l.getD k d := by
  induction l generalizing n k with
  | nil => simp
  | cons a t ih =>
    cases n with
    | zero => omega
    | succ m =>
      cases k with
      | zero => simp
      | succ j =>
        simp only [List.take_succ_cons, List.getD_cons_succ]
        exact ih _ _ (by omega)

theorem getD_takeL (l : List (List Nat)) (n k : Nat) (d : List Nat) (h : k < n) :
    (l.take n).getD k d = l.getD k d := by
  induction l generalizing n k with
  | nil => simp
  | cons a t ih =>
    cases n with
    | zero => omega
    | succ m =>
      cases k with
      | zero => simp
      | succ j =>
        simp only [List.take_succ_cons, List.getD_cons_succ]
        exact ih _ _ (by omega)

theorem getD_mem_of_lt {α : Type} (l : List α) (n : Nat) (d : α)
    (h : n < l.length) : l.getD n d ∈ l := by
  induction l generalizing n with
  | nil => simp at h
  | cons a t ih =>
    cases n with
    | zero => simp
    | succ k =>
      simp only [List.getD_cons_succ]
      exact List.mem_cons_of_mem _ (ih _ (by simpa using h))

theorem getD_map_of_lt {α β : Type} (l : List α) (f : α → β) (i : Nat)
    (d : β) (d0 : α) (h : i < l.length) :
    (l.map f).getD i d = f (l.getD i d0) := by
  induction l generalizing i with
  | nil => simp at h
  | cons a t ih =>
    cases i with
    | zero => simp
    | succ k =>
      simp only [List.map_cons, List.getD_cons_succ]
      exact ih _ (by simpa using h)

/-! ### `string_index` characterization -/

theorem string_index_ge (l : List (List Nat)) (x : List Nat) :
    -1 ≤ string_index l x := by
  induction l with
  | nil => simp [string_index]
  | cons h t ih =>
    by_cases he : h = x
    · simp [string_index, he]
    · simp only [string_index, if_neg he]
      split
      · omega
      · omega

theorem string_index_lt_length (l : List (List Nat)) (x : List Nat) :
    string_index l x < l.length := by
  induction l with
  | nil => simp [string_index]
  | cons h t ih =>
    by_cases he : h = x
    · simp only [string_index, if_pos he, List.length_cons]
      push_cast
      omega
    · simp only [string_index, if_neg he, List.length_cons]
      split
      · push_cast
        omega
      · push_cast
        omega

theorem string_index_eq_neg_one_iff (l : List (List Nat)) (x : List Nat) :
    string_index l x = -1 ↔ ¬ x ∈ l := by
  induction l with
  | nil => simp [string_index]
  | cons h t ih =>
    by_cases he : h = x
    · simp [string_index, he]
    · simp only [string_index, if_neg he, List.mem_cons]
      have hge := string_index_ge t x
      constructor
      · intro heq
        intro hc
        rcases hc with hc | hc
        · exact he hc.symm
        · have : string_index t x = -1 := by
            by_contra hne
            rw [if_neg hne] at heq
            omega
          exact (ih.mp this) hc
      · intro hnm
        have : ¬ x ∈ t := fun hm => hnm (Or.inr hm)
        rw [ih.mpr this]
        simp
/-- First-match characterization of `string_index`: either the needle
is absent and the result is -1, or the result is the first position
holding the needle. -/
theorem string_index_spec (l : List (List Nat)) (x : List Nat) :
    (string_index l x = -1 ∧ ∀ j, j < l.length → l.getD j [] ≠ x) ∨
    (∃ j : Nat, string_index l x = (j : Int) ∧ j < l.length ∧
      l.getD j [] = x ∧ ∀ j', j' < j → l.getD j' [] ≠ x) := by
  induction l with
  | nil => simp [string_index]
  | cons h t ih =>
    by_cases he : h = x
    · right
      exact ⟨0, by simp [string_index, he], by simp, by simpa using he,
        fun j' hj' => absurd hj' (by omega)⟩
    · rcases ih with ⟨h1, h2⟩ | ⟨j, hj1, hj2, hj3, hj4⟩
      · left
        refine ⟨by simp [string_index, he, h1], ?_⟩
        intro j hj
        cases j with
        | zero => simpa using he
        | succ k =>
          simp only [List.getD_cons_succ]
          exact h2 k (by simpa using hj)
      · right
        refine ⟨j + 1, ?_, by simpa using hj2, by simpa using hj3, ?_⟩
        · have hne : string_index t x ≠ -1 := by rw [hj1]; omega
          simp only [string_index, if_neg he, if_neg hne, hj1]
          push_cast
          ring
        · intro j' hj'
          cases j' with
          | zero => simpa using he
          | succ k =>
            simp only [List.getD_cons_succ]
            exact hj4 k (by omega)

/-! ### The `maxval` loops -/

theorem le_foldl_cmaxI (l : List Int) (a : Int) :
    a ≤ l.foldl (fun m v => if m < v then v else m) a := by
  induction l generalizing a with
  | nil => simp
  | cons x t ih =>
    simp only [List.foldl_cons]
    calc a ≤ (if a < x then x else a) := by split <;> omega
    _ ≤ _ := ih _

theorem mem_le_foldl_cmaxI (l : List Int) (a v : Int) (h : v ∈ l) :
    v ≤ l.foldl (fun m v => if m < v then v else m) a := by
  induction l generalizing a with
  | nil => simp at h
  | cons x t ih =>
    simp only [List.foldl_cons]
    rcases List.mem_cons.mp h with rfl | hm
    · calc v ≤ (if a < v then v else a) := by split <;> omega
      _ ≤ _ := le_foldl_cmaxI _ _
    · exact ih _ hm

theorem foldl_cmaxI_mem (l : List Int) (a : Int) :
    l.foldl (fun m v => if m < v then v else m) a = a ∨
    l.foldl (fun m v => if m < v then v else m) a ∈ l := by
  induction l generalizing a with
  | nil => simp
  | cons x t ih =>
    simp only [List.foldl_cons]
    rcases ih (if a < x then x else a) with h | h
    · rw [h]
      split
      · right; simp
      · left; rfl
    · right
      exact List.mem_cons_of_mem _ h

theorem cmaxI_nonneg (l : List Int) : 0 ≤ cmaxI l := le_foldl_cmaxI l 0

theorem mem_le_cmaxI (l : List Int) (v : Int) (h : v ∈ l) : v ≤ cmaxI l :=
  mem_le_foldl_cmaxI l 0 v h

theorem le_foldl_cmaxN (l : List Nat) (a : Nat) :
    a ≤ l.foldl (fun m v => if m < v then v else m) a := by
  induction l generalizing a with
  | nil => simp
  | cons x t ih =>
    simp only [List.foldl_cons]
    calc a ≤ (if a < x then x else a) := by split <;> omega
    _ ≤ _ := ih _

theorem mem_le_foldl_cmaxN (l : List Nat) (a v : Nat) (h : v ∈ l) :
    v ≤ l.foldl (fun m v => if m < v then v else m) a := by
  induction l generalizing a with
  | nil => simp at h
  | cons x t ih =>
    simp only [List.foldl_cons]
    rcases List.mem_cons.mp h with rfl | hm
    · calc v ≤ (if a < v then v else a) := by split <;> omega
      _ ≤ _ := le_foldl_cmaxN _ _
    · exact ih _ hm

theorem foldl_cmaxN_mem (l : List Nat) (a : Nat) :
    l.foldl (fun m v => if m < v then v else m) a = a ∨
    l.foldl (fun m v => if m < v then v else m) a ∈ l := by
  induction l generalizing a with
  | nil => simp
  | cons x t ih =>
    simp only [List.foldl_cons]
    rcases ih (if a < x then x else a) with h | h
    · rw [h]
      split
      · right; simp
      · left; rfl
    · right
      exact List.mem_cons_of_mem _ h

theorem mem_le_cmaxN (l : List Nat) (v : Nat) (h : v ∈ l) : v ≤ cmaxN l :=
  mem_le_foldl_cmaxN l 0 v h

/-- Projecting the index enumeration back through `getD` recovers a
plain filter of the list. -/
theorem filter_range_map_getD (l : List (List Nat)) (p : List Nat → Bool) :
    (((List.range l.length).filter (fun i => p (l.getD i []))).map
      (fun i => l.getD i [])) = l.filter p := by
  induction l with
  | nil => simp
  | cons a t ih =>
    have hr : List.range (t.length + 1) = 0 :: (List.range t.length).map Nat.succ :=
      List.range_succ_eq_map t.length
    have hcomp : ((fun i => p ((a :: t).getD i [])) ∘ Nat.succ) =
        (fun i => p (t.getD i [])) := by
      funext i
      simp
    have hcomp2 : ((fun i => (a :: t).getD i []) ∘ Nat.succ) =
        (fun i => t.getD i []) := by
      funext i
      simp
    simp only [List.length_cons]
    rw [hr, List.filter_cons, List.filter_map, hcomp]
    by_cases hp : p a
    · rw [if_pos (by simpa using hp)]
      rw [List.map_cons, List.map_map, hcomp2, List.getD_cons_zero, ih,
        List.filter_cons_of_pos hp]
    · rw [if_neg (by simpa using hp)]
      rw [List.map_map, hcomp2, ih, List.filter_cons_of_neg hp]

theorem headD_take_pos (l : List Nat) (n d : Nat) (hn : 0 < n) :
    (l.take n).headD d = l.headD d := by
  cases l with
  | nil => simp
  | cons a t =>
    cases n with
    | zero => omega
    | succ m => simp

/-- A byte-wise prefix fact truncates. -/
theorem take_down {line p : List Nat} {n m : Nat} (hnm : n ≤ m)
    (h : line.take m = p) : line.take n = p.take n := by
  rw [← h, List.take_take]
  congr 1
  omega

theorem headD_35_of_take {line p : List Nat} {n : Nat}
    (hn : 0 < n) (hp : p.headD 0 = 35) (h : line.take n = p) :
    line.headD 0 = 35 := by
  have h1 := headD_take_pos line n 0 hn
  rw [h, hp] at h1
  exact h1.symm

/-! ### Byte-class characterizations -/

theorem isHexDigitB_iff (b : Nat) :
    isHexDigitB b = true ↔
      ((48 ≤ b ∧ b ≤ 57) ∨ (65 ≤ b ∧ b ≤ 70) ∨ (97 ≤ b ∧ b ≤ 102)) := by
  simp only [isHexDigitB, Bool.or_eq_true, Bool.and_eq_true, decide_eq_true_eq]
  tauto

theorem isSpaceB_iff (b : Nat) :
    isSpaceB b = true ↔ (b = 32 ∨ (9 ≤ b ∧ b ≤ 13)) := by
  simp [isSpaceB, Bool.or_eq_true, Bool.and_eq_true, decide_eq_true_eq]

theorem isSpaceB_eq_false_of_hex {b : Nat} (h : isHexDigitB b = true) :
    isSpaceB b = false := by
  rw [isHexDigitB_iff] at h
  rw [Bool.eq_false_iff]
  intro hc
  rw [isSpaceB_iff] at hc
  omega

theorem hexDigitVal_le {b : Nat} (h : isHexDigitB b = true) :
    hexDigitVal b ≤ 15 := by
  rw [isHexDigitB_iff] at h
  unfold hexDigitVal
  split_ifs <;> omega

theorem takeWhile_hex_nil {l : List Nat} (h : isHexDigitB (l.headD 0) = false) :
    l.takeWhile isHexDigitB = [] := by
  cases l with
  | nil => rfl
  | cons a t =>
    simp only [List.headD_cons] at h
    simp [List.takeWhile_cons, h]

theorem dropWhile_space_self {l : List Nat} (h : isSpaceB (l.headD 0) = false) :
    l.dropWhile isSpaceB = l := by
  cases l with
  | nil => rfl
  | cons a t =>
    simp only [List.headD_cons] at h
    simp [List.dropWhile_cons, h]

theorem byteOf_ofNat {v : Nat} (h : v < 256) : byteOf (v : Int) = v := by
  unfold byteOf
  rw [Int.emod_eq_of_lt (by omega) (by omega)]
  exact Int.toNat_natCast v

/-! ### Claim C5: the separator resolver -/

/-- C5 counterexample: the claim says a malformed hex escape degrades
to the literal first character.  On `"\xZZ"` the code returns byte 0
(the `strtol` failure value), not 92 (the backslash). -/
theorem c5_counterexample :
    parsesep (bytes "\\xZZ") = 0 ∧ (bytes "\\xZZ").headD 0 = 92 ∧ (0 : Nat) ≠ 92 := by
  refine ⟨by decide, by decide, by decide⟩

/-- Evaluation of the `strtol` model when the input starts with no
whitespace, no sign and no `0x` marker. -/
theorem strtol16_plain {l : List Nat} (hsp : isSpaceB (l.headD 0) = false)
    (h43 : l.headD 0 ≠ 43) (h45 : l.headD 0 ≠ 45)
    (h0x : strtolHexBody l = l) :
    strtol16 l =
      if ((hexRunVal l : Int) > 2 ^ 63 - 1) then 2 ^ 63 - 1
      else (hexRunVal l : Int) := by
  have hsign : strtolSign l = (false, l) := by
    cases l with
    | nil => rfl
    | cons b t =>
      simp only [List.headD_cons] at h43 h45
      simp only [strtolSign]
      rw [if_neg h43, if_neg h45]
  simp only [strtol16, dropWhile_space_self hsp, hsign, h0x]
  simp

/-- The `0x` marker is not consumed when the head byte is not `0` or
the following byte is not `x`/`X`. -/
theorem strtolHexBody_self {l : List Nat}
    (h : ∀ x r, l = 48 :: x :: r → x ≠ 120 ∧ x ≠ 88) :
    strtolHexBody l = l := by
  cases l with
  | nil => rfl
  | cons b t =>
    cases t with
    | nil => rfl
    | cons x r =>
      simp only [strtolHexBody]
      rw [if_neg]
      rintro ⟨hb, hx, -⟩
      subst hb
      rcases h x r rfl with ⟨h1, h2⟩
      rcases hx with hx | hx
      · exact h1 hx
      · exact h2 hx

/-- C5 (amended): for a specification starting with the hex-escape
prefix followed by exactly two hex digits (and no third hex digit),
the resolver returns their byte value; `"\x09"` and a literal tab
resolve to the same byte; without the prefix the first character's
byte is returned; a malformed hex escape (no hex digits after the
prefix, no leading C-number whitespace or sign) yields byte 0, not
the literal first character, and never aborts. -/
theorem c5_parsesep_amended :
    (∀ d1 d2 rest, isHexDigitB d1 = true → isHexDigitB d2 = true →
      isHexDigitB (rest.headD 0) = false →
      parsesep (92 :: 120 :: d1 :: d2 :: rest) = 16 * hexDigitVal d1 + hexDigitVal d2) ∧
    (parsesep (bytes "\\x09") = parsesep [9]) ∧
    (∀ s, ¬(s.take 2 = bytes "\\x") → parsesep s = s.headD 0) ∧
    (∀ rest, isSpaceB (rest.headD 0) = false → rest.headD 0 ≠ 43 →
      rest.headD 0 ≠ 45 → isHexDigitB (rest.headD 0) = false →
      parsesep (92 :: 120 :: rest) = 0) := by
  refine ⟨?_, by decide, ?_, ?_⟩
  · intro d1 d2 rest h1 h2 h3
    have hv1 := hexDigitVal_le h1
    have hv2 := hexDigitVal_le h2
    have hb1 := (isHexDigitB_iff d1).mp h1
    have hb2 := (isHexDigitB_iff d2).mp h2
    have hpre : (92 :: 120 :: d1 :: d2 :: rest).take 2 = bytes "\\x" := rfl
    have hstep : parsesep (92 :: 120 :: d1 :: d2 :: rest) =
        byteOf (strtol16 (d1 :: d2 :: rest)) := by
      unfold parsesep
      rw [if_pos hpre]
      rfl
    rw [hstep]
    have hplain := strtol16_plain (l := d1 :: d2 :: rest)
      (by simpa using isSpaceB_eq_false_of_hex h1)
      (by simp only [List.headD_cons]; omega)
      (by simp only [List.headD_cons]; omega)
      (strtolHexBody_self (by
        intro x r hr
        injection hr with he1 hr2
        injection hr2 with he2 hr3
        subst he2
        exact ⟨by omega, by omega⟩))
    have hrun : hexRunVal (d1 :: d2 :: rest) = 16 * hexDigitVal d1 + hexDigitVal d2 := by
      unfold hexRunVal
      rw [List.takeWhile_cons_of_pos h1, List.takeWhile_cons_of_pos h2,
        takeWhile_hex_nil h3]
      simp only [List.foldl_cons, List.foldl_nil]
      ring
    rw [hplain, hrun, if_neg (by push_cast; omega)]
    exact byteOf_ofNat (by omega)
  · intro s hs
    unfold parsesep
    rw [if_neg hs]
  · intro rest hsp h43 h45 hhex
    have hpre : (92 :: 120 :: rest).take 2 = bytes "\\x" := rfl
    have hstep : parsesep (92 :: 120 :: rest) = byteOf (strtol16 rest) := by
      unfold parsesep
      rw [if_pos hpre]
      rfl
    rw [hstep]
    have h0x : strtolHexBody rest = rest := by
      apply strtolHexBody_self
      intro x r hr
      subst hr
      simp only [List.headD_cons] at hhex
      exact absurd hhex (by decide)
    have hrun : hexRunVal rest = 0 := by
      unfold hexRunVal
      rw [takeWhile_hex_nil hhex]
      rfl
    rw [strtol16_plain hsp h43 h45 h0x, hrun]
    rw [if_neg (by norm_num)]
    decide

/-- Witness for C5 (amended), exercising the two-hex-digit clause, the
no-prefix clause and the malformed clause at concrete inputs. -/
theorem c5_witness :
    parsesep (92 :: 120 :: 52 :: 49 :: [32]) = 16 * hexDigitVal 52 + hexDigitVal 49 ∧
    parsesep (bytes ",ab") = (bytes ",ab").headD 0 ∧
    parsesep (92 :: 120 :: bytes "ZZ") = 0 := by
  refine ⟨c5_parsesep_amended.1 52 49 [32] (by decide) (by decide) (by decide),
    c5_parsesep_amended.2.2.1 (bytes ",ab") (by decide),
    c5_parsesep_amended.2.2.2 (bytes "ZZ") (by decide) (by decide) (by decide) (by decide)⟩

/-! ### Claim C7: a type-declaration line without a preceding
field-name line aborts the run -/

/-- C7: reaching a `#types` header line while the previous-line-was-
`#fields` flag is down emits the "missing #fields" diagnostic, stops
processing (no later line contributes events), and returns 1. -/
theorem c7_types_without_fields_fatal (bopts : Useropts)
    (conv : List Nat → List Nat) (st : DriverState) (line : List Nat)
    (rest : List (List Nat))
    (h1 : st.prev_fields_line = false) (h2 : line.take 6 = bytes "#types") :
    runLoop bopts conv st (line :: rest) = ([Event.err msg_missing_fields], 1) := by
  have h35 : line.headD 0 = 35 := headD_35_of_take (by omega) (by decide) h2
  have hsep : ¬(line.take 11 = bytes "#separator ") := by
    intro hc
    have h6 := take_down (show (6 : Nat) ≤ 11 by omega) hc
    rw [h2] at h6
    exact absurd h6 (by decide)
  have hfld : ¬(line.take 7 = bytes "#fields") := by
    intro hc
    have h6 := take_down (show (6 : Nat) ≤ 7 by omega) hc
    rw [h2] at h6
    exact absurd h6 (by decide)
  have hstep : step bopts conv st line = ([Event.err msg_missing_fields], none) := by
    unfold step
    rw [if_neg (by simp [h1]), if_neg (by rw [h35]; exact fun h => h rfl), if_neg hsep, if_neg hfld,
      if_pos h2, if_pos h1]
  simp [runLoop, hstep]

/-- Witness for C7 at a concrete stream: a `#types` line first. -/
theorem c7_witness :
    runLoop ⟨0, false, 0, [], 0⟩ (fun _ => []) initState
      [bytes "#types\tstring", bytes "1\t2"] =
      ([Event.err msg_missing_fields], 1) :=
  c7_types_without_fields_fatal _ _ _ _ _ (by decide) (by decide)

/-! ### Claim C10: after a `#fields` line, anything but `#types` next
is fatal -/

/-- C10: processing a `#fields` header line raises the
`prev_fields_line` flag, and with the flag up, any next line that does
not start with `#types` (data line, other header kind, anything)
aborts the run with the "missing #types" diagnostic, processing no
further lines and returning 1. -/
theorem c10_fields_requires_types_next :
    (∀ (bopts : Useropts) (conv : List Nat → List Nat) (st : DriverState)
      (line : List Nat),
      st.prev_fields_line = false → line.take 7 = bytes "#fields" →
      ∃ st', (step bopts conv st line).2 = some st' ∧ st'.prev_fields_line = true) ∧
    (∀ (bopts : Useropts) (conv : List Nat → List Nat) (st : DriverState)
      (line : List Nat) (rest : List (List Nat)),
      st.prev_fields_line = true → ¬(line.take 6 = bytes "#types") →
      runLoop bopts conv st (line :: rest) = ([Event.err msg_missing_types], 1)) := by
  constructor
  · intro bopts conv st line h1 h2
    have h35 : line.headD 0 = 35 := headD_35_of_take (by omega) (by decide) h2
    have hsep : ¬(line.take 11 = bytes "#separator ") := by
      intro hc
      have h7 := take_down (show (7 : Nat) ≤ 11 by omega) hc
      rw [h2] at h7
      exact absurd h7 (by decide)
    refine ⟨⟨find_output_indexes (line.drop 8) st.lp bopts,
      bumpHS st.prev_line_hdr st.headers_seen, true, true⟩, ?_, rfl⟩
    unfold step
    rw [if_neg (by simp [h1]), if_neg (by rw [h35]; exact fun h => h rfl), if_neg hsep, if_pos h2]
  · intro bopts conv st line rest h1 h2
    have hstep : step bopts conv st line = ([Event.err msg_missing_types], none) := by
      unfold step
      rw [if_pos ⟨h1, h2⟩]
    simp [runLoop, hstep]

/-- Witness for C10 at concrete inputs: a `#fields` line raises the
flag, and a data line directly after `#fields` aborts. -/
theorem c10_witness :
    (∃ st', (step ⟨0, false, 0, [], 0⟩ (fun _ => []) initState
        (bytes "#fields\ta\tb")).2 = some st' ∧ st'.prev_fields_line = true) ∧
    runLoop ⟨0, false, 0, [], 0⟩ (fun _ => [])
      ⟨initLP, 1, true, true⟩ [bytes "1\t2", bytes "3\t4"] =
      ([Event.err msg_missing_types], 1) :=
  ⟨c10_fields_requires_types_next.1 _ _ _ _ (by decide) (by decide),
   c10_fields_requires_types_next.2 _ _ _ _ _ (by decide) (by decide)⟩

/-! ### Claim C8: a data line with too few fields is skipped
recoverably -/

/-- C8: a data line whose field count is below the active
`idx_range` produces only the skip diagnostic (no output line), the
driver state is unchanged except for the header-transition flag, and
the rest of the stream is processed as if the line had not been
there, so the final return value is unaffected. -/
theorem c8_short_data_line_recoverable (bopts : Useropts)
    (conv : List Nat → List Nat) (st : DriverState) (line : List Nat)
    (rest : List (List Nat))
    (h1 : st.prev_fields_line = false) (h2 : line.headD 0 ≠ 35)
    (h3 : (splitSep st.lp.ifs line).length < st.lp.idx_range) :
    step bopts conv st line =
      ([Event.err msg_skip], some { st with prev_line_hdr := false }) ∧
    runLoop bopts conv st (line :: rest) =
      (Event.err msg_skip :: (runLoop bopts conv { st with prev_line_hdr := false } rest).1,
       (runLoop bopts conv { st with prev_line_hdr := false } rest).2) := by
  have hproj : project bopts conv st.lp false line = none := by
    simp only [project]
    rw [if_pos (by simpa [hdrExtra] using h3)]
  have hstep : step bopts conv st line =
      ([Event.err msg_skip], some { st with prev_line_hdr := false }) := by
    unfold step
    rw [if_neg (by simp [h1]), if_pos h2, hproj]
  exact ⟨hstep, by simp [runLoop, hstep]⟩

/-- Witness for C8: a 2-field line under a schema requiring 3. -/
theorem c8_witness :
    step ⟨0, false, 0, [], 0⟩ (fun _ => [])
      ⟨⟨[2], 3, [], 3, 9, 9⟩, 1, false, false⟩ (bytes "a\tb") =
      ([Event.err msg_skip],
       some ⟨⟨[2], 3, [], 3, 9, 9⟩, 1, false, false⟩) ∧
    runLoop ⟨0, false, 0, [], 0⟩ (fun _ => [])
      ⟨⟨[2], 3, [], 3, 9, 9⟩, 1, false, false⟩ [bytes "a\tb"] =
      (Event.err msg_skip ::
        (runLoop ⟨0, false, 0, [], 0⟩ (fun _ => [])
          ⟨⟨[2], 3, [], 3, 9, 9⟩, 1, false, false⟩ []).1,
       (runLoop ⟨0, false, 0, [], 0⟩ (fun _ => [])
          ⟨⟨[2], 3, [], 3, 9, 9⟩, 1, false, false⟩ []).2) :=
  c8_short_data_line_recoverable _ _ _ _ _ (by decide) (by decide) (by decide)

/-! ### Step analysis helpers -/

theorem foi_pres (L : List Nat) (lp : LogParams) (bopts : Useropts) :
    (find_output_indexes L lp bopts).ifs = lp.ifs ∧
    (find_output_indexes L lp bopts).ofs = lp.ofs ∧
    (find_output_indexes L lp bopts).time_cols = lp.time_cols := by
  unfold find_output_indexes
  by_cases h1 : bopts.columns = [] <;> by_cases h2 : bopts.negate = false <;>
    simp [h1, h2]

theorem find_timecol_pres {rest : List Nat} {lp lp' : LogParams}
    (h : find_timecol rest lp = some lp') :
    lp'.ifs = lp.ifs ∧ lp'.ofs = lp.ofs ∧ lp'.out_indexes = lp.out_indexes ∧
    lp'.idx_range = lp.idx_range := by
  simp only [find_timecol] at h
  split at h
  · cases h
  · injection h with h
    rw [← h]
    exact ⟨rfl, rfl, rfl, rfl⟩

/-- Full characterization of a non-fatal `step`: the header
transition flag, the `headers_seen` bump, the separator state update
(only `#separator` lines touch the separators), and the fact that the
events of a header line are exactly the display decision taken with
the updated state. -/
theorem step_some_spec (bopts : Useropts) (conv : List Nat → List Nat)
    (st : DriverState) (line : List Nat) (st' : DriverState)
    (h : (step bopts conv st line).2 = some st') :
    (st'.prev_line_hdr = true ↔ line.headD 0 = 35) ∧
    st'.headers_seen =
      (if line.headD 0 = 35 then bumpHS st.prev_line_hdr st.headers_seen
       else st.headers_seen) ∧
    (line.take 11 = bytes "#separator " →
      st'.lp = sepLP bopts st.lp (parsesep (line.drop 11))) ∧
    (¬(line.take 11 = bytes "#separator ") →
      st'.lp.ifs = st.lp.ifs ∧ st'.lp.ofs = st.lp.ofs) ∧
    (line.headD 0 = 35 →
      (step bopts conv st line).1 =
        displayHdr bopts conv st'.lp st'.headers_seen line) := by
  by_cases c0 : st.prev_fields_line ∧ ¬(line.take 6 = bytes "#types")
  · have hstep : step bopts conv st line = ([Event.err msg_missing_types], none) := by
      unfold step
      rw [if_pos c0]
    rw [hstep] at h
    simp at h
  · by_cases c1 : line.headD 0 ≠ 35
    · cases hp : project bopts conv st.lp false line with
      | none =>
        have hstep : step bopts conv st line =
            ([Event.err msg_skip], some { st with prev_line_hdr := false }) := by
          unfold step
          rw [if_neg c0, if_pos c1, hp]
        rw [hstep] at h
        simp only [Option.some.injEq] at h
        subst h
        refine ⟨⟨fun hc => absurd hc (by simp), fun hc => absurd hc c1⟩,
          (if_neg c1).symm, ?_, fun _ => ⟨rfl, rfl⟩, fun hc => absurd hc c1⟩
        intro hc
        exact absurd (headD_35_of_take (by omega) (by decide) hc) c1
      | some o =>
        have hstep : step bopts conv st line =
            ([Event.out o], some { st with prev_line_hdr := false }) := by
          unfold step
          rw [if_neg c0, if_pos c1, hp]
        rw [hstep] at h
        simp only [Option.some.injEq] at h
        subst h
        refine ⟨⟨fun hc => absurd hc (by simp), fun hc => absurd hc c1⟩,
          (if_neg c1).symm, ?_, fun _ => ⟨rfl, rfl⟩, fun hc => absurd hc c1⟩
        intro hc
        exact absurd (headD_35_of_take (by omega) (by decide) hc) c1
    · push_neg at c1
      by_cases c2 : line.take 11 = bytes "#separator "
      · have hstep : step bopts conv st line =
            (displayHdr bopts conv (sepLP bopts st.lp (parsesep (line.drop 11)))
               (bumpHS st.prev_line_hdr st.headers_seen) line,
             some ⟨sepLP bopts st.lp (parsesep (line.drop 11)),
               bumpHS st.prev_line_hdr st.headers_seen, true, st.prev_fields_line⟩) := by
          unfold step
          rw [if_neg c0, if_neg (by rw [c1]; exact fun hc => hc rfl), if_pos c2]
        rw [hstep] at h
        simp only [Option.some.injEq] at h
        subst h
        exact ⟨iff_of_true rfl c1, (if_pos c1).symm, fun _ => rfl, fun hc => absurd c2 hc,
          fun _ => by rw [hstep]⟩
      · by_cases c3 : line.take 7 = bytes "#fields"
        · have hstep : step bopts conv st line =
              (displayHdr bopts conv (find_output_indexes (line.drop 8) st.lp bopts)
                 (bumpHS st.prev_line_hdr st.headers_seen) line,
               some ⟨find_output_indexes (line.drop 8) st.lp bopts,
                 bumpHS st.prev_line_hdr st.headers_seen, true, true⟩) := by
            unfold step
            rw [if_neg c0, if_neg (by rw [c1]; exact fun hc => hc rfl), if_neg c2,
              if_pos c3]
          rw [hstep] at h
          simp only [Option.some.injEq] at h
          subst h
          refine ⟨iff_of_true rfl c1, (if_pos c1).symm, fun hc => absurd hc c2, ?_, fun _ => by rw [hstep]⟩
          intro _
          exact ⟨(foi_pres _ _ _).1, (foi_pres _ _ _).2.1⟩
        · by_cases c4 : line.take 6 = bytes "#types"
          · by_cases c5 : st.prev_fields_line = false
            · have hstep : step bopts conv st line =
                  ([Event.err msg_missing_fields], none) := by
                unfold step
                rw [if_neg c0, if_neg (by rw [c1]; exact fun hc => hc rfl), if_neg c2,
                  if_neg c3, if_pos c4, if_pos c5]
              rw [hstep] at h
              simp at h
            · by_cases c6 : bopts.timeconv ≠ 0
              · cases hft : find_timecol (line.drop 7) st.lp with
                | none =>
                  have hstep : step bopts conv st line =
                      ([Event.err msg_hdr_short], none) := by
                    unfold step
                    rw [if_neg c0, if_neg (by rw [c1]; exact fun hc => hc rfl),
                      if_neg c2, if_neg c3, if_pos c4, if_neg c5, if_pos c6, hft]
                  rw [hstep] at h
                  simp at h
                | some lp2 =>
                  have hstep : step bopts conv st line =
                      (displayHdr bopts conv lp2
                         (bumpHS st.prev_line_hdr st.headers_seen) line,
                       some ⟨lp2, bumpHS st.prev_line_hdr st.headers_seen,
                         true, false⟩) := by
                    unfold step
                    rw [if_neg c0, if_neg (by rw [c1]; exact fun hc => hc rfl),
                      if_neg c2, if_neg c3, if_pos c4, if_neg c5, if_pos c6, hft]
                  rw [hstep] at h
                  simp only [Option.some.injEq] at h
                  subst h
                  refine ⟨iff_of_true rfl c1, (if_pos c1).symm, fun hc => absurd hc c2, ?_,
                    fun _ => by rw [hstep]⟩
                  intro _
                  exact ⟨(find_timecol_pres hft).1, (find_timecol_pres hft).2.1⟩
              · have hstep : step bopts conv st line =
                    (displayHdr bopts conv st.lp
                       (bumpHS st.prev_line_hdr st.headers_seen) line,
                     some ⟨st.lp, bumpHS st.prev_line_hdr st.headers_seen,
                       true, false⟩) := by
                  unfold step
                  rw [if_neg c0, if_neg (by rw [c1]; exact fun hc => hc rfl),
                    if_neg c2, if_neg c3, if_pos c4, if_neg c5, if_neg c6]
                rw [hstep] at h
                simp only [Option.some.injEq] at h
                subst h
                exact ⟨iff_of_true rfl c1, (if_pos c1).symm, fun hc => absurd hc c2,
                  fun _ => ⟨rfl, rfl⟩, fun _ => by rw [hstep]⟩
          · have hstep : step bopts conv st line =
                (displayHdr bopts conv st.lp
                   (bumpHS st.prev_line_hdr st.headers_seen) line,
                 some ⟨st.lp, bumpHS st.prev_line_hdr st.headers_seen,
                   true, st.prev_fields_line⟩) := by
              unfold step
              rw [if_neg c0, if_neg (by rw [c1]; exact fun hc => hc rfl), if_neg c2,
                if_neg c3, if_neg c4]
            rw [hstep] at h
            simp only [Option.some.injEq] at h
            subst h
            exact ⟨iff_of_true rfl c1, (if_pos c1).symm, fun hc => absurd hc c2,
              fun _ => ⟨rfl, rfl⟩, fun _ => by rw [hstep]⟩

/-! ### Claim C4: the effective output separator -/

/-- C4 counterexample: with output-separator override `,` (byte 44)
and a stream whose header block carries no `#separator` line, the
data line `1<TAB>2` is emitted joined by TAB (9), not by the
override — refuting the claim for lines emitted before any
`#separator` header line. -/
theorem c4_counterexample :
    bro_cut ⟨0, false, 0, [], 44⟩ (fun _ => [])
      [bytes "#fields\ta\tb", bytes "#types\tstring\tstring", bytes "1\t2"] =
      ([Event.out [49, 9, 50]], 0) ∧
    [49, 9, 50] ≠ [49, 44, 50] := by
  exact ⟨by decide, by decide⟩

/-- C4 (amended): both separators start as TAB, and they are touched
only by a `#separator` header line; such a line sets the input
separator to the parsed byte and the output separator to the override
when one was supplied, else to that same parsed byte.  So before the
first `#separator` line the output separator is TAB even when an
override was supplied; from each `#separator` line on, it is the
override if set, else the most recently declared input separator. -/
theorem c4_output_separator_amended :
    (initState.lp.ofs = 9 ∧ initState.lp.ifs = 9) ∧
    (∀ (bopts : Useropts) (conv : List Nat → List Nat) (st : DriverState)
      (line : List Nat) (st' : DriverState),
      line.take 11 = bytes "#separator " →
      (step bopts conv st line).2 = some st' →
      st'.lp.ifs = parsesep (line.drop 11) ∧
      st'.lp.ofs = (if bopts.ofs ≠ 0 then bopts.ofs else parsesep (line.drop 11))) ∧
    (∀ (bopts : Useropts) (conv : List Nat → List Nat) (st : DriverState)
      (line : List Nat) (st' : DriverState),
      ¬(line.take 11 = bytes "#separator ") →
      (step bopts conv st line).2 = some st' →
      st'.lp.ofs = st.lp.ofs ∧ st'.lp.ifs = st.lp.ifs) := by
  refine ⟨⟨rfl, rfl⟩, ?_, ?_⟩
  · intro bopts conv st line st' hsep h
    have hlp := (step_some_spec bopts conv st line st' h).2.2.1 hsep
    rw [hlp]
    exact ⟨rfl, rfl⟩
  · intro bopts conv st line st' hsep h
    have hlp := (step_some_spec bopts conv st line st' h).2.2.2.1 hsep
    exact ⟨hlp.2, hlp.1⟩

/-- Witness for C4 (amended): a concrete `#separator` line with the
override unset, and a concrete non-separator line. -/
theorem c4_witness :
    ((step ⟨0, false, 0, [], 0⟩ (fun _ => []) initState
        (bytes "#separator \\x2c")).2 = some
        ⟨⟨[], 0, [], 0, 44, 44⟩, 1, true, false⟩) ∧
    ((step ⟨0, false, 0, [], 0⟩ (fun _ => []) initState
        (bytes "#separator \\x2c")).2.map (fun st => st.lp.ifs) = some
        (parsesep ((bytes "#separator \\x2c").drop 11))) ∧
    ((step ⟨0, false, 0, [], 0⟩ (fun _ => []) initState (bytes "#note")).2.map
        (fun st => st.lp.ofs) = some initState.lp.ofs) := by
  refine ⟨by decide, ?_, ?_⟩
  · have h := (c4_output_separator_amended.2.1 ⟨0, false, 0, [], 0⟩ (fun _ => [])
      initState (bytes "#separator \\x2c") ⟨⟨[], 0, [], 0, 44, 44⟩, 1, true, false⟩
      (by decide) (by decide))
    rw [show (step ⟨0, false, 0, [], 0⟩ (fun _ => []) initState
      (bytes "#separator \\x2c")).2 = some ⟨⟨[], 0, [], 0, 44, 44⟩, 1, true, false⟩
      from by decide]
    simp only [Option.map_some']
    rw [← h.1]
  · have h := (c4_output_separator_amended.2.2 ⟨0, false, 0, [], 0⟩ (fun _ => [])
      initState (bytes "#note") ⟨initLP, 1, true, false⟩ (by decide) (by decide))
    rw [show (step ⟨0, false, 0, [], 0⟩ (fun _ => []) initState (bytes "#note")).2 =
      some ⟨initLP, 1, true, false⟩ from by decide]
    simp only [Option.map_some']
    rw [h.1]

/-! ### Claim C6: `idx_range` derived from resolved indices only -/

theorem foi_nonneg_eq (L : List Nat) (lp : LogParams) (bopts : Useropts)
    (hcols : bopts.columns ≠ []) (hneg : bopts.negate = false) :
    (find_output_indexes L lp bopts).out_indexes =
      bopts.columns.map (fun c => string_index (splitSep lp.ifs L) c) ∧
    (find_output_indexes L lp bopts).idx_range =
      (cmaxI (bopts.columns.map (fun c => string_index (splitSep lp.ifs L) c))
        + 1).toNat := by
  simp only [find_output_indexes]
  rw [if_neg hcols, if_pos hneg]
  exact ⟨rfl, rfl⟩

/-- C6: after a field-name header is processed with a non-empty,
non-negated request list, `idx_range` bounds every resolved index
strictly; when at least one name resolves, `idx_range` is one more
than the largest resolved index (an attained maximum); and when no
requested name resolves, the unresolved markers contribute nothing
and `idx_range` is 1. -/
theorem c6_idx_range_spec (L : List Nat) (lp0 : LogParams) (bopts : Useropts)
    (hcols : bopts.columns ≠ []) (hneg : bopts.negate = false) :
    (∀ k ∈ (find_output_indexes L lp0 bopts).out_indexes, k ≠ -1 →
      k.toNat < (find_output_indexes L lp0 bopts).idx_range) ∧
    ((∃ k ∈ (find_output_indexes L lp0 bopts).out_indexes, k ≠ -1) →
      ∃ m : Nat, (m : Int) ∈ (find_output_indexes L lp0 bopts).out_indexes ∧
        (∀ k ∈ (find_output_indexes L lp0 bopts).out_indexes, k ≤ (m : Int)) ∧
        (find_output_indexes L lp0 bopts).idx_range = m + 1) ∧
    ((∀ k ∈ (find_output_indexes L lp0 bopts).out_indexes, k = -1) →
      (find_output_indexes L lp0 bopts).idx_range = 1) := by
  obtain ⟨hout, hidx⟩ := foi_nonneg_eq L lp0 bopts hcols hneg
  have hge : ∀ k ∈ (find_output_indexes L lp0 bopts).out_indexes, -1 ≤ k := by
    intro k hk
    rw [hout] at hk
    obtain ⟨c, -, rfl⟩ := List.mem_map.mp hk
    exact string_index_ge _ _
  have hnn : (0 : Int) ≤
      cmaxI (bopts.columns.map (fun c => string_index (splitSep lp0.ifs L) c)) :=
    cmaxI_nonneg _
  refine ⟨?_, ?_, ?_⟩
  · intro k hk hkne
    have hk0 : (0 : Int) ≤ k := by
      have := hge k hk
      omega
    rw [hout] at hk
    have hle := mem_le_cmaxI _ k hk
    rw [hidx]
    omega
  · rintro ⟨k0, hk0mem, hk0ne⟩
    have hk00 : (0 : Int) ≤ k0 := by
      have := hge k0 hk0mem
      omega
    rw [hout] at hk0mem
    rcases foldl_cmaxI_mem
        (bopts.columns.map (fun c => string_index (splitSep lp0.ifs L) c)) 0 with
      hz | hmem
    · have hcz : cmaxI
          (bopts.columns.map (fun c => string_index (splitSep lp0.ifs L) c)) = 0 := hz
      have hle := mem_le_cmaxI _ k0 hk0mem
      refine ⟨0, ?_, ?_, ?_⟩
      · rw [hout]
        have hzz : ((0 : Nat) : Int) = k0 := by omega
        rw [hzz]
        exact hk0mem
      · intro k hk
        rw [hout] at hk
        have := mem_le_cmaxI _ k hk
        push_cast
        omega
      · rw [hidx]
        omega
    · refine ⟨(cmaxI (bopts.columns.map
          (fun c => string_index (splitSep lp0.ifs L) c))).toNat, ?_, ?_, ?_⟩
      · rw [hout]
        have h2 := Int.toNat_of_nonneg hnn
        rw [h2]
        exact hmem
      · intro k hk
        rw [hout] at hk
        have := mem_le_cmaxI _ k hk
        have h2 := Int.toNat_of_nonneg hnn
        omega
      · rw [hidx]
        omega
  · intro hall
    have hcz : cmaxI
        (bopts.columns.map (fun c => string_index (splitSep lp0.ifs L) c)) = 0 := by
      rcases foldl_cmaxI_mem
          (bopts.columns.map (fun c => string_index (splitSep lp0.ifs L) c)) 0 with
        hz | hmem
      · exact hz
      · have hmem2 : cmaxI (bopts.columns.map
            (fun c => string_index (splitSep lp0.ifs L) c)) ∈
            (find_output_indexes L lp0 bopts).out_indexes := by
          rw [hout]
          exact hmem
        have := hall _ hmem2
        omega
    rw [hidx]
    omega

/-- Witness for C6 at a concrete header: fields `a b c`, requested
columns `c` (resolves to 2) and `zz` (unresolved). -/
theorem c6_witness :
    (∀ k ∈ (find_output_indexes (bytes "a\tb\tc") initLP
        ⟨0, false, 0, [bytes "c", bytes "zz"], 0⟩).out_indexes, k ≠ -1 →
      k.toNat < (find_output_indexes (bytes "a\tb\tc") initLP
        ⟨0, false, 0, [bytes "c", bytes "zz"], 0⟩).idx_range) ∧
    ((∃ k ∈ (find_output_indexes (bytes "a\tb\tc") initLP
        ⟨0, false, 0, [bytes "c", bytes "zz"], 0⟩).out_indexes, k ≠ -1) →
      ∃ m : Nat, (m : Int) ∈ (find_output_indexes (bytes "a\tb\tc") initLP
        ⟨0, false, 0, [bytes "c", bytes "zz"], 0⟩).out_indexes ∧
        (∀ k ∈ (find_output_indexes (bytes "a\tb\tc") initLP
          ⟨0, false, 0, [bytes "c", bytes "zz"], 0⟩).out_indexes, k ≤ (m : Int)) ∧
        (find_output_indexes (bytes "a\tb\tc") initLP
          ⟨0, false, 0, [bytes "c", bytes "zz"], 0⟩).idx_range = m + 1) ∧
    ((∀ k ∈ (find_output_indexes (bytes "a\tb\tc") initLP
        ⟨0, false, 0, [bytes "c", bytes "zz"], 0⟩).out_indexes, k = -1) →
      (find_output_indexes (bytes "a\tb\tc") initLP
        ⟨0, false, 0, [bytes "c", bytes "zz"], 0⟩).idx_range = 1) :=
  c6_idx_range_spec _ _ _ (by decide) (by decide)

/-! ### Claim C1: non-negated column selection -/

/-- Unfolding of the projector on a data line with enough fields. -/
theorem project_data_eq (bopts : Useropts) (conv : List Nat → List Nat)
    (lp : LogParams) (line : List Nat)
    (h : lp.idx_range ≤ (splitSep lp.ifs line).length) :
    project bopts conv lp false line =
      some (emitLoop lp.ofs false (lp.out_indexes.map
        (slotOut conv (bopts.timeconv != 0) false lp.time_cols
          ((splitSep lp.ifs line).take lp.idx_range) 0))) := by
  have h0 : hdrExtra false = 0 := rfl
  simp only [project, h0, Nat.add_zero, Bool.not_false, Bool.and_true,
    Bool.and_false, Bool.false_and]
  rw [if_neg (by omega)]
  simp

/-- C1: with a non-empty request list, negate off and time conversion
off, a data line long enough to be emitted is emitted as the list of
one slot per requested column, in request order: the slot of a
requested name holds the field at the first declared position bearing
that name, and an unresolved name contributes an empty slot at its
own position. -/
theorem c1_projection_selects_requested (L D : List Nat) (lp0 : LogParams)
    (bopts : Useropts) (conv : List Nat → List Nat)
    (hcols : bopts.columns ≠ []) (hneg : bopts.negate = false)
    (htc : bopts.timeconv = 0)
    (hlen : (find_output_indexes L lp0 bopts).idx_range ≤
      (splitSep lp0.ifs D).length) :
    ∃ slots : List (List Nat),
      project bopts conv (find_output_indexes L lp0 bopts) false D =
        some (emitLoop lp0.ofs false slots) ∧
      slots.length = bopts.columns.length ∧
      ∀ i, i < bopts.columns.length →
        ((∃ j, j < (splitSep lp0.ifs L).length ∧
            (splitSep lp0.ifs L).getD j [] = bopts.columns.getD i [] ∧
            (∀ j', j' < j →
              (splitSep lp0.ifs L).getD j' [] ≠ bopts.columns.getD i []) ∧
            slots.getD i [] = (splitSep lp0.ifs D).getD j []) ∨
         ((∀ j, j < (splitSep lp0.ifs L).length →
             (splitSep lp0.ifs L).getD j [] ≠ bopts.columns.getD i []) ∧
          slots.getD i [] = [])) := by
  obtain ⟨hout, hidx⟩ := foi_nonneg_eq L lp0 bopts hcols hneg
  obtain ⟨hifs, hofs, -⟩ := foi_pres L lp0 bopts
  refine ⟨(find_output_indexes L lp0 bopts).out_indexes.map
    (slotOut conv (bopts.timeconv != 0) false
      (find_output_indexes L lp0 bopts).time_cols
      ((splitSep (find_output_indexes L lp0 bopts).ifs D).take
        (find_output_indexes L lp0 bopts).idx_range) 0), ?_, ?_, ?_⟩
  · rw [← hofs]
    exact project_data_eq bopts conv _ D (by rw [hifs]; exact hlen)
  · rw [List.length_map, hout, List.length_map]
  · intro i hi
    have hlen1 : i < (find_output_indexes L lp0 bopts).out_indexes.length := by
      rw [hout, List.length_map]
      exact hi
    have hslot := getD_map_of_lt (find_output_indexes L lp0 bopts).out_indexes
      (slotOut conv (bopts.timeconv != 0) false
        (find_output_indexes L lp0 bopts).time_cols
        ((splitSep (find_output_indexes L lp0 bopts).ifs D).take
          (find_output_indexes L lp0 bopts).idx_range) 0) i [] (-1) hlen1
    have hentry : (find_output_indexes L lp0 bopts).out_indexes.getD i (-1) =
        string_index (splitSep lp0.ifs L) (bopts.columns.getD i []) := by
      rw [hout]
      exact getD_map_of_lt _ _ i (-1) [] hi
    rcases string_index_spec (splitSep lp0.ifs L) (bopts.columns.getD i []) with
      ⟨habs, hnone⟩ | ⟨j, hj1, hj2, hj3, hj4⟩
    · right
      refine ⟨hnone, ?_⟩
      rw [hslot, hentry, habs]
      simp [slotOut]
    · left
      refine ⟨j, hj2, hj3, hj4, ?_⟩
      have hjmem : ((j : Nat) : Int) ∈ (find_output_indexes L lp0 bopts).out_indexes := by
        rw [← hj1, ← hentry]
        exact getD_mem_of_lt _ i _ hlen1
      have hjlt : j < (find_output_indexes L lp0 bopts).idx_range := by
        rw [hout] at hjmem
        have hle := mem_le_cmaxI _ _ hjmem
        have hnn := cmaxI_nonneg
          (bopts.columns.map (fun c => string_index (splitSep lp0.ifs L) c))
        rw [hidx]
        omega
      rw [hslot, hentry, hj1]
      unfold slotOut
      rw [if_neg (by omega), htc]
      simp only [bne_self_eq_false, Bool.false_and, Bool.false_eq_true, if_false]
      rw [Int.toNat_natCast, Nat.add_zero, hifs]
      exact getD_takeL _ _ _ _ hjlt

/-- Witness for C1: fields `a b c`, requested `c zz a`, data line
`1 2 3`. -/
theorem c1_witness :
    ∃ slots : List (List Nat),
      project ⟨0, false, 0, [bytes "c", bytes "zz", bytes "a"], 0⟩ (fun _ => [])
        (find_output_indexes (bytes "a\tb\tc") initLP
          ⟨0, false, 0, [bytes "c", bytes "zz", bytes "a"], 0⟩) false
        (bytes "1\t2\t3") =
        some (emitLoop initLP.ofs false slots) ∧
      slots.length = (⟨0, false, 0, [bytes "c", bytes "zz", bytes "a"], 0⟩ :
        Useropts).columns.length ∧
      ∀ i, i < (⟨0, false, 0, [bytes "c", bytes "zz", bytes "a"], 0⟩ :
          Useropts).columns.length →
        ((∃ j, j < (splitSep initLP.ifs (bytes "a\tb\tc")).length ∧
            (splitSep initLP.ifs (bytes "a\tb\tc")).getD j [] =
              (⟨0, false, 0, [bytes "c", bytes "zz", bytes "a"], 0⟩ :
                Useropts).columns.getD i [] ∧
            (∀ j', j' < j →
              (splitSep initLP.ifs (bytes "a\tb\tc")).getD j' [] ≠
                (⟨0, false, 0, [bytes "c", bytes "zz", bytes "a"], 0⟩ :
                  Useropts).columns.getD i []) ∧
            slots.getD i [] = (splitSep initLP.ifs (bytes "1\t2\t3")).getD j []) ∨
         ((∀ j, j < (splitSep initLP.ifs (bytes "a\tb\tc")).length →
             (splitSep initLP.ifs (bytes "a\tb\tc")).getD j [] ≠
               (⟨0, false, 0, [bytes "c", bytes "zz", bytes "a"], 0⟩ :
                 Useropts).columns.getD i []) ∧
          slots.getD i [] = [])) :=
  c1_projection_selects_requested (bytes "a\tb\tc") (bytes "1\t2\t3") initLP
    ⟨0, false, 0, [bytes "c", bytes "zz", bytes "a"], 0⟩ (fun _ => [])
    (by decide) (by decide) (by decide) (by decide)

/-! ### Claim C2: negate mode is the order-preserving complement -/

theorem string_index_beq_neg_one (c : List (List Nat)) (x : List Nat) :
    (string_index c x == -1) = !(decide (x ∈ c)) := by
  by_cases h : x ∈ c
  · have hne : string_index c x ≠ -1 := fun hc =>
      ((string_index_eq_neg_one_iff c x).mp hc) h
    simp [h, hne]
  · have he : string_index c x = -1 := (string_index_eq_neg_one_iff c x).mpr h
    simp [he, h]

theorem foi_neg_eq (L : List Nat) (lp : LogParams) (bopts : Useropts)
    (hcols : bopts.columns ≠ []) (hneg : bopts.negate = true) :
    (find_output_indexes L lp bopts).out_indexes =
      ((List.range (L.countP (fun b => b == lp.ifs) + 1)).filter
        (fun i => string_index bopts.columns ((splitSep lp.ifs L).getD i []) == -1)).map
        Int.ofNat ∧
    (find_output_indexes L lp bopts).idx_range =
      cmaxN ((List.range (L.countP (fun b => b == lp.ifs) + 1)).filter
        (fun i => string_index bopts.columns ((splitSep lp.ifs L).getD i []) == -1))
        + 1 := by
  simp only [find_output_indexes]
  rw [if_neg hcols, if_neg (by rw [hneg]; exact fun hc => Bool.noConfusion hc)]
  exact ⟨rfl, rfl⟩

/-- C2: in negate mode the output index list enumerates, in original
order, exactly the declared positions whose name is not in the
exclusion set; the projected name list is the declared list with
excluded members removed; and when at least one position is kept,
`idx_range` is one more than the largest kept position. -/
theorem c2_negate_complement (L : List Nat) (lp0 : LogParams) (bopts : Useropts)
    (hneg : bopts.negate = true) (hcols : bopts.columns ≠ []) :
    (find_output_indexes L lp0 bopts).out_indexes =
      ((List.range (splitSep lp0.ifs L).length).filter
        (fun i => !(decide ((splitSep lp0.ifs L).getD i [] ∈ bopts.columns)))).map
        Int.ofNat ∧
    (find_output_indexes L lp0 bopts).out_indexes.map
        (fun k => (splitSep lp0.ifs L).getD k.toNat []) =
      (splitSep lp0.ifs L).filter (fun f => !(decide (f ∈ bopts.columns))) ∧
    (((List.range (splitSep lp0.ifs L).length).filter
        (fun i => !(decide ((splitSep lp0.ifs L).getD i [] ∈ bopts.columns)))) ≠ [] →
      ∃ m, m ∈ ((List.range (splitSep lp0.ifs L).length).filter
          (fun i => !(decide ((splitSep lp0.ifs L).getD i [] ∈ bopts.columns)))) ∧
        (∀ k ∈ ((List.range (splitSep lp0.ifs L).length).filter
          (fun i => !(decide ((splitSep lp0.ifs L).getD i [] ∈ bopts.columns)))),
          k ≤ m) ∧
        (find_output_indexes L lp0 bopts).idx_range = m + 1) := by
  have hfun : (fun i => string_index bopts.columns ((splitSep lp0.ifs L).getD i []) == -1)
      = (fun i => !(decide ((splitSep lp0.ifs L).getD i [] ∈ bopts.columns))) :=
    funext fun i => string_index_beq_neg_one _ _
  have hlen : L.countP (fun b => b == lp0.ifs) + 1 = (splitSep lp0.ifs L).length :=
    (length_splitSep lp0.ifs L).symm
  obtain ⟨hout, hidx⟩ := foi_neg_eq L lp0 bopts hcols hneg
  rw [hlen, hfun] at hout hidx
  refine ⟨hout, ?_, ?_⟩
  · rw [hout, List.map_map]
    have hcomp : ((fun k : Int => (splitSep lp0.ifs L).getD k.toNat []) ∘ Int.ofNat)
        = fun i => (splitSep lp0.ifs L).getD i [] := by
      funext i
      simp
    rw [hcomp]
    exact filter_range_map_getD (splitSep lp0.ifs L)
      (fun f => !(decide (f ∈ bopts.columns)))
  · intro hne
    rcases foldl_cmaxN_mem ((List.range (splitSep lp0.ifs L).length).filter
        (fun i => !(decide ((splitSep lp0.ifs L).getD i [] ∈ bopts.columns)))) 0 with
      hz | hmem
    · have hcz : cmaxN ((List.range (splitSep lp0.ifs L).length).filter
          (fun i => !(decide ((splitSep lp0.ifs L).getD i [] ∈ bopts.columns)))) = 0 :=
        hz
      obtain ⟨h, t, hKc⟩ := List.exists_cons_of_ne_nil hne
      have hh : h ≤ cmaxN ((List.range (splitSep lp0.ifs L).length).filter
          (fun i => !(decide ((splitSep lp0.ifs L).getD i [] ∈ bopts.columns)))) :=
        mem_le_cmaxN _ _ (by rw [hKc]; exact List.mem_cons_self _ _)
      have h0 : h = 0 := by omega
      refine ⟨0, ?_, ?_, ?_⟩
      · rw [hKc, ← h0]
        exact List.mem_cons_self _ _
      · intro k hk
        have := mem_le_cmaxN _ _ hk
        omega
      · rw [hidx]
        omega
    · exact ⟨cmaxN ((List.range (splitSep lp0.ifs L).length).filter
          (fun i => !(decide ((splitSep lp0.ifs L).getD i [] ∈ bopts.columns)))),
        hmem, fun k hk => mem_le_cmaxN _ _ hk, by rw [hidx]⟩

/-- Witness for C2: fields `a b c`, exclusion set `{b}`; kept
positions are `[0, 2]`. -/
theorem c2_witness :
    ((⟨0, true, 0, [bytes "b"], 0⟩ : Useropts).negate = true) ∧
    ((⟨0, true, 0, [bytes "b"], 0⟩ : Useropts).columns ≠ []) ∧
    (find_output_indexes (bytes "a\tb\tc") initLP
        ⟨0, true, 0, [bytes "b"], 0⟩).out_indexes =
      ((List.range (splitSep initLP.ifs (bytes "a\tb\tc")).length).filter
        (fun i => !(decide ((splitSep initLP.ifs (bytes "a\tb\tc")).getD i [] ∈
          (⟨0, true, 0, [bytes "b"], 0⟩ : Useropts).columns)))).map Int.ofNat ∧
    (find_output_indexes (bytes "a\tb\tc") initLP
        ⟨0, true, 0, [bytes "b"], 0⟩).out_indexes.map
        (fun k => (splitSep initLP.ifs (bytes "a\tb\tc")).getD k.toNat []) =
      (splitSep initLP.ifs (bytes "a\tb\tc")).filter
        (fun f => !(decide (f ∈ (⟨0, true, 0, [bytes "b"], 0⟩ : Useropts).columns))) :=
  ⟨by decide, by decide,
    (c2_negate_complement (bytes "a\tb\tc") initLP ⟨0, true, 0, [bytes "b"], 0⟩
      (by decide) (by decide)).1,
    (c2_negate_complement (bytes "a\tb\tc") initLP ⟨0, true, 0, [bytes "b"], 0⟩
      (by decide) (by decide)).2.1⟩

/-! ### Claim C9: the time-to-string type rewrite -/

/-- Unfolding of the projector on a header line with enough fields. -/
theorem project_hdr_eq (bopts : Useropts) (conv : List Nat → List Nat)
    (lp : LogParams) (line : List Nat)
    (h : lp.idx_range + 1 ≤ (splitSep lp.ifs line).length) :
    project bopts conv lp true line =
      some ((((splitSep lp.ifs line).take (lp.idx_range + 1)).getD 0 []) ++
        emitLoop lp.ofs true (lp.out_indexes.map
          (slotOut conv false
            ((bopts.timeconv != 0) &&
              (((splitSep lp.ifs line).take (lp.idx_range + 1)).getD 0 [] ==
                bytes "#types"))
            lp.time_cols ((splitSep lp.ifs line).take (lp.idx_range + 1)) 1))) := by
  have h0 : hdrExtra true = 1 := rfl
  simp only [project, h0]
  rw [if_neg (by omega)]
  simp

/-- C9: when time conversion is active and the projected header line
is a `#types` line, the tag field is emitted unchanged and each
selected type field equal to "time" is displayed as "string", all
others unchanged; on header lines of any other kind the selected
fields are emitted raw; and on data lines the emitted slot is either
the raw field or its time-converted form — the "string" substitution
never applies there. -/
theorem c9_types_time_rewrite (bopts : Useropts) (conv : List Nat → List Nat)
    (lp : LogParams) (line : List Nat)
    (hinv : ∀ k ∈ lp.out_indexes, k ≠ -1 → k.toNat < lp.idx_range) :
    (bopts.timeconv ≠ 0 → (splitSep lp.ifs line).getD 0 [] = bytes "#types" →
      lp.idx_range + 1 ≤ (splitSep lp.ifs line).length →
      project bopts conv lp true line =
        some ((splitSep lp.ifs line).getD 0 [] ++ emitLoop lp.ofs true
          (lp.out_indexes.map (fun k =>
            if k = -1 then []
            else if (splitSep lp.ifs line).getD (k.toNat + 1) [] = bytes "time" then
              bytes "string"
            else (splitSep lp.ifs line).getD (k.toNat + 1) [])))) ∧
    ((splitSep lp.ifs line).getD 0 [] ≠ bytes "#types" →
      lp.idx_range + 1 ≤ (splitSep lp.ifs line).length →
      project bopts conv lp true line =
        some ((splitSep lp.ifs line).getD 0 [] ++ emitLoop lp.ofs true
          (lp.out_indexes.map (fun k =>
            if k = -1 then [] else (splitSep lp.ifs line).getD (k.toNat + 1) [])))) ∧
    (lp.idx_range ≤ (splitSep lp.ifs line).length →
      project bopts conv lp false line =
        some (emitLoop lp.ofs false
          (lp.out_indexes.map (fun k =>
            if k = -1 then []
            else if bopts.timeconv ≠ 0 ∧ lp.time_cols.getD k.toNat false = true then
              conv ((splitSep lp.ifs line).getD k.toNat [])
            else (splitSep lp.ifs line).getD k.toNat [])))) := by
  have htf : ∀ j, j < lp.idx_range + 1 →
      ((splitSep lp.ifs line).take (lp.idx_range + 1)).getD j [] =
      (splitSep lp.ifs line).getD j [] := fun j hj => getD_takeL _ _ _ _ hj
  refine ⟨?_, ?_, ?_⟩
  · intro htcv htag hlen2
    rw [project_hdr_eq bopts conv lp line hlen2]
    rw [htf 0 (by omega), htag]
    congr 2
    congr 1
    apply List.map_congr_left
    intro k hk
    by_cases hkne : k = -1
    · simp [slotOut, hkne]
    · have hklt := hinv k hk hkne
      unfold slotOut
      simp only [if_neg hkne]
      simp only [Bool.false_and, Bool.false_eq_true, if_false]
      rw [htf (k.toNat + 1) (by omega)]
      rw [show ((bopts.timeconv != 0) && (bytes "#types" == bytes "#types")) = true
        from by rw [Bool.and_eq_true]; exact ⟨bne_iff_ne.mpr htcv, beq_self_eq_true _⟩]
      simp only [Bool.true_and]
      by_cases ht : (splitSep lp.ifs line).getD (k.toNat + 1) [] = bytes "time"
      · simp [ht]
      · simp [ht]
  · intro htag hlen2
    rw [project_hdr_eq bopts conv lp line hlen2]
    rw [htf 0 (by omega)]
    congr 2
    congr 1
    apply List.map_congr_left
    intro k hk
    by_cases hkne : k = -1
    · simp [slotOut, hkne]
    · have hklt := hinv k hk hkne
      unfold slotOut
      simp only [if_neg hkne]
      simp only [Bool.false_and, Bool.false_eq_true, if_false]
      rw [htf (k.toNat + 1) (by omega)]
      rw [show (((splitSep lp.ifs line).getD 0 []) == bytes "#types") = false
        from beq_eq_false_iff_ne.mpr htag]
      simp only [Bool.and_false, Bool.false_and, Bool.false_eq_true, if_false]
  · intro hlen1
    rw [project_data_eq bopts conv lp line hlen1]
    congr 2
    apply List.map_congr_left
    intro k hk
    by_cases hkne : k = -1
    · simp [slotOut, hkne]
    · have hklt := hinv k hk hkne
      have htf1 : ∀ j, j < lp.idx_range →
          ((splitSep lp.ifs line).take lp.idx_range).getD j [] =
          (splitSep lp.ifs line).getD j [] := fun j hj => getD_takeL _ _ _ _ hj
      unfold slotOut
      simp only [if_neg hkne, Nat.add_zero]
      rw [htf1 k.toNat hklt]
      by_cases htcv : bopts.timeconv = 0
      · rw [htcv]
        simp only [bne_self_eq_false, Bool.false_and, Bool.false_eq_true, if_false]
        rw [if_neg (by rintro ⟨hc, -⟩; exact hc rfl)]
      · by_cases htcol : lp.time_cols.getD k.toNat false = true
        · rw [show ((bopts.timeconv != 0) && lp.time_cols.getD k.toNat false) = true
            from by rw [Bool.and_eq_true]; exact ⟨bne_iff_ne.mpr htcv, htcol⟩]
          rw [if_pos rfl, if_pos ⟨htcv, htcol⟩]
        · rw [show lp.time_cols.getD k.toNat false = false
            from Bool.eq_false_iff.mpr htcol, Bool.and_false]
          simp

/-- Witness for C9: a `#types` header with a time column under UTC
conversion, the same header without conversion context, and a data
line. -/
theorem c9_witness :
    (project ⟨0, false, 2, [bytes "ts"], 0⟩ (fun _ => bytes "T")
        ⟨[1], 2, [false, true], 2, 9, 9⟩ true (bytes "#types\tstring\ttime") =
      some ((splitSep 9 (bytes "#types\tstring\ttime")).getD 0 [] ++
        emitLoop 9 true ([(1 : Int)].map (fun k =>
          if k = -1 then []
          else if (splitSep 9 (bytes "#types\tstring\ttime")).getD (k.toNat + 1) [] =
              bytes "time" then bytes "string"
          else (splitSep 9 (bytes "#types\tstring\ttime")).getD (k.toNat + 1) [])))) ∧
    (project ⟨0, false, 2, [bytes "ts"], 0⟩ (fun _ => bytes "T")
        ⟨[1], 2, [false, true], 2, 9, 9⟩ false (bytes "a\t17") =
      some (emitLoop 9 false ([(1 : Int)].map (fun k =>
        if k = -1 then []
        else if (2 : Nat) ≠ 0 ∧ [false, true].getD k.toNat false = true then
          (fun _ : List Nat => bytes "T") ((splitSep 9 (bytes "a\t17")).getD k.toNat [])
        else (splitSep 9 (bytes "a\t17")).getD k.toNat [])))) :=
  ⟨(c9_types_time_rewrite ⟨0, false, 2, [bytes "ts"], 0⟩ (fun _ => bytes "T")
      ⟨[1], 2, [false, true], 2, 9, 9⟩ (bytes "#types\tstring\ttime")
      (by decide)).1 (by decide) (by decide) (by decide),
   (c9_types_time_rewrite ⟨0, false, 2, [bytes "ts"], 0⟩ (fun _ => bytes "T")
      ⟨[1], 2, [false, true], 2, 9, 9⟩ (bytes "a\t17")
      (by decide)).2.2 (by decide)⟩

/-! ### Claim C3: header-line display policy -/

/-- C3 counterexample: with the all-blocks display setting
(threshold 2), a `#types` header line whose field count is below what
the projector requires is not emitted (only a skip diagnostic is),
although its `headers_seen` (1) is at most the threshold — refuting
"a header line is emitted iff `headers_seen` ≤ threshold". -/
theorem c3_counterexample :
    bro_cut ⟨2, false, 0, [bytes "b"], 0⟩ (fun _ => [])
      [bytes "#fields\ta\tb", bytes "#types\tstring"] =
      ([Event.out (bytes "#fields\tb"), Event.err msg_skip], 0) ∧
    (bro_cut ⟨2, false, 0, [bytes "b"], 0⟩ (fun _ => [])
      [bytes "#fields\ta\tb", bytes "#types\tstring"]).1.countP isOut = 1 := by
  exact ⟨by decide, by decide⟩

/-- C3 (amended): `headers_seen` is bumped (saturating at 2) exactly
on a transition from a non-header line to a header line; a header
line whose `headers_seen` exceeds the threshold produces no event at
all; one within the threshold is echoed verbatim unless it is a
`#fields`/`#types` line, which goes through the projector and is
skipped with a diagnostic instead when the line has too few fields
for the active index range; in particular on a two-block stream,
threshold 0 emits no header line, threshold 1 emits only the first
block's header lines, and threshold 2 emits both blocks'. -/
theorem c3_header_display_amended :
    (∀ (bopts : Useropts) (conv : List Nat → List Nat) (st : DriverState)
      (line : List Nat) (st' : DriverState),
      (step bopts conv st line).2 = some st' →
      ((st'.prev_line_hdr = true ↔ line.headD 0 = 35) ∧
       st'.headers_seen =
         (if line.headD 0 = 35 then bumpHS st.prev_line_hdr st.headers_seen
          else st.headers_seen))) ∧
    (∀ (bopts : Useropts) (conv : List Nat → List Nat) (st : DriverState)
      (line : List Nat) (st' : DriverState),
      line.headD 0 = 35 →
      (step bopts conv st line).2 = some st' →
      ((bopts.showhdr < st'.headers_seen → (step bopts conv st line).1 = []) ∧
       (st'.headers_seen ≤ bopts.showhdr →
         ((¬(line.take 7 = bytes "#fields" ∨ line.take 6 = bytes "#types") →
            (step bopts conv st line).1 = [Event.out line]) ∧
          ((line.take 7 = bytes "#fields" ∨ line.take 6 = bytes "#types") →
            (step bopts conv st line).1 =
              (project bopts conv st'.lp true line).elim [Event.err msg_skip]
                (fun o => [Event.out o])))))) ∧
    (bro_cut ⟨0, false, 0, [], 0⟩ (fun _ => []) exBlocks =
      ([Event.out (bytes "1"), Event.out (bytes "2")], 0)) ∧
    (bro_cut ⟨1, false, 0, [], 0⟩ (fun _ => []) exBlocks =
      ([Event.out (bytes "#fields\ta"), Event.out (bytes "#types\tstring"),
        Event.out (bytes "1"), Event.out (bytes "2")], 0)) ∧
    (bro_cut ⟨2, false, 0, [], 0⟩ (fun _ => []) exBlocks =
      ([Event.out (bytes "#fields\ta"), Event.out (bytes "#types\tstring"),
        Event.out (bytes "1"),
        Event.out (bytes "#fields\ta"), Event.out (bytes "#types\tstring"),
        Event.out (bytes "2")], 0)) := by
  refine ⟨?_, ?_, by decide, by decide, by decide⟩
  · intro bopts conv st line st' h
    have hs := step_some_spec bopts conv st line st' h
    exact ⟨hs.1, hs.2.1⟩
  · intro bopts conv st line st' h35 h
    have hev := (step_some_spec bopts conv st line st' h).2.2.2.2 h35
    rw [hev]
    unfold displayHdr
    constructor
    · intro hlt
      rw [if_neg (by omega)]
    · intro hge
      rw [if_pos (by omega)]
      constructor
      · intro hkind
        rw [if_neg hkind]
      · intro hkind
        rw [if_pos hkind]
        cases project bopts conv st'.lp true line <;> rfl

/-- Witness for C3 (amended): a first header line of unrecognized
kind under the all-blocks setting is counted and echoed verbatim. -/
theorem c3_witness :
    (((⟨initLP, 1, true, false⟩ : DriverState).prev_line_hdr = true ↔
      (bytes "#x").headD 0 = 35) ∧
     (⟨initLP, 1, true, false⟩ : DriverState).headers_seen =
       (if (bytes "#x").headD 0 = 35 then
          bumpHS initState.prev_line_hdr initState.headers_seen
        else initState.headers_seen)) ∧
    (step ⟨2, false, 0, [], 0⟩ (fun _ => []) initState (bytes "#x")).1 =
      [Event.out (bytes "#x")] := by
  have h1 := c3_header_display_amended.1 ⟨2, false, 0, [], 0⟩ (fun _ => [])
    initState (bytes "#x") ⟨initLP, 1, true, false⟩ (by decide)
  have h2 := c3_header_display_amended.2.1 ⟨2, false, 0, [], 0⟩ (fun _ => [])
    initState (bytes "#x") ⟨initLP, 1, true, false⟩ (by decide) (by decide)
  exact ⟨h1, (h2.2 (by decide)).1 (by decide)⟩

example : parsesep (bytes "\\x09") = 9 := by decide

example : parsesep (bytes ",abc") = 44 := by decide

example : splitSep 9 (bytes "a\tb\tc") = [bytes "a", bytes "b", bytes "c"] := by decide

example :
    bro_cut ⟨0, false, 0, [], 0⟩ (fun _ => [])
      [bytes "#fields\ta\tb", bytes "#types\tstring\tstring", bytes "1\t2"] =
    ([Event.out (bytes "1\t2")], 0) := by decide

end BroCut
